import Mathlib

/-!
Verification of the PopForecast enrichment layer.

This file gives a shallow embedding, in Lean 4, of the enrichment and
reconciliation code of the PopForecast repository:

* `src/scripts/enrich_with_musicbrainz.py` (the checkpointed runner loop),
* `src/features/build_musicbrainz_features.py` (`extract_logic`),
* `src/scripts/fix_schema_drift.py` (`clean_redundant_columns`),
* `src/scripts/enrich_with_wikidata.py` (`search_musicbrainz`,
  `get_wikidata_qid_from_mb`, `enrich_from_wikidata`,
  `fetch_and_build_record`, `process_raw_entry`),
* `src/api/musicbrainz_client.py` (`get_track_prominence`).

Python dictionaries keeping insertion order are embedded as association
lists; outbound HTTP calls are embedded as explicit outcome parameters
(an exception, or a response with a status code and an optionally
malformed body); a raised-and-caught Python exception is an explicit
`Bool`/`Except` marker threaded through the translation.  Python `float`
rounding via `round(x, 4)` is embedded as exact rational rounding with
ties to even, which is the convention `round` uses.
-/

/-- Association-list lookup, first match wins: the embedding of a Python
dict read (`d.get(k)` / `k in d`).  Keys are unique in every dict we
model, so first-match agrees with the dict. -/
def lookupA {α : Type} : List (String × α) → String → Option α
  | [], _ => none
  | p :: rest, k => if p.1 = k then some p.2 else lookupA rest k

/-- Association-list write `d[k] = v`: updates the entry in place when the
key is present (Python dicts keep the original position), appends at the
end otherwise (Python dicts append new keys). -/
def updateA {α : Type} (m : List (String × α)) (k : String) (v : α) : List (String × α) :=
  if (lookupA m k).isSome then
    m.map (fun p => if p.1 = k then (k, v) else p)
  else m ++ [(k, v)]

/-- The record built by `get_track_prominence` and persisted in
`musicbrainz_enrichment_v1.json`.  Fields mirror the Python dict
initialised at the top of the function. -/
structure ProminenceResult where
  release_title : Option String
  release_date : Option String
  release_type : String
  track_count : Option Nat
  track_number : Option Nat
  found : Bool
deriving DecidableEq, Repr

/-- The initial value of `result` in `get_track_prominence`. -/
def initResult : ProminenceResult :=
  { release_title := none, release_date := none, release_type := "unknown",
    track_count := none, track_number := none, found := false }

/-- The composite cache key `f"{artist} || {track}"` used by
`enrich_with_musicbrainz.main` and by `extract_logic`. -/
def workKey (artist track : String) : String := artist ++ " || " ++ track

/-- One iteration of the task loop in `enrich_with_musicbrainz.main`:
skip the task when its key is already in `results`, otherwise call the
client, store the record under the key and count the request. -/
def enrichStep (client : String → String → ProminenceResult)
    (acc : List (String × ProminenceResult) × Nat) (task : String × String) :
    List (String × ProminenceResult) × Nat :=
  match lookupA acc.1 (workKey task.1 task.2) with
  | some _ => acc
  | none => (acc.1 ++ [(workKey task.1 task.2, client task.1 task.2)], acc.2 + 1)

/-- The task loop of `enrich_with_musicbrainz.main` over a work list,
started from a loaded results cache.  Returns the final cache and the
number of client requests issued during this run. -/
def runEnrich (client : String → String → ProminenceResult)
    (tasks : List (String × String)) (results : List (String × ProminenceResult)) :
    List (String × ProminenceResult) × Nat :=
  tasks.foldl (enrichStep client) (results, 0)

/-- A cached MusicBrainz record as read back from the enrichment JSON by
`build_musicbrainz_features.py`.  `track_number`/`track_count` are absent
or null (`none`) or a non-negative integer. -/
structure MBCachedRec where
  found : Bool
  release_type : Option String
  track_number : Option Nat
  track_count : Option Nat
deriving DecidableEq, Repr

/-- The row of derived features produced by `extract_logic`. -/
structure FeatRow where
  mb_found : Nat
  mb_is_single : Nat
  mb_track_number : Nat
  mb_track_count : Nat
  mb_prominence_ratio : Rat
deriving DecidableEq, Repr

/-- `10000 * (n / c)` rounded to the nearest integer with ties to even,
computed on naturals: the scaled heart of Python's `round(n / c, 4)`.
`x / c` and `x % c` split `10000 * n / c` into integer part and
remainder; the remainder is compared against half of `c` to decide the
direction, with ties resolved towards the even integer, which is the
convention of Python's builtin `round`. -/
def rheNat (n c : Nat) : Nat :=
  let x := 10000 * n
  let f := x / c
  let r := x % c
  if 2 * r < c then f
  else if c < 2 * r then f + 1
  else if f % 2 = 0 then f else f + 1

/-- Python's `round(n / c, 4)` for natural `n`, `c` with `c > 0`,
embedded as exact rational rounding with ties to even. -/
def round4 (n c : Nat) : Rat := (rheNat n c : Rat) / 10000

/-- The Python idiom `data.get(k) or 1`: a missing key, a null and a zero
all collapse to 1. -/
def orOne : Option Nat → Nat
  | none => 1
  | some 0 => 1
  | some (n + 1) => n + 1

/-- `extract_logic` from `build_musicbrainz_features.py`: looks a row's
composite key up in the cached mapping and derives the feature row,
falling back to the neutral defaults when the key is absent or the
cached record has a falsy `found`. -/
def extract_logic (mb_data : List (String × MBCachedRec))
    (artist_name song_name : String) : FeatRow :=
  match lookupA mb_data (workKey artist_name song_name) with
  | none => ⟨0, 1, 1, 1, 0⟩
  | some data =>
    if data.found then
      let rt := data.release_type.getD "unknown"
      let single : Nat := if rt = "Single" ∨ rt = "EP" then 1 else 0
      let n := orOne data.track_number
      let c := orOne data.track_count
      let r : Rat := if 0 < c then round4 n c else 0
      ⟨1, single, n, c, r⟩
    else ⟨0, 1, 1, 1, 0⟩

/-! ### Schema-drift repair (`fix_schema_drift.clean_redundant_columns`)

Column names are embedded as `List Char` so that Python's substring
operations (`str.replace`, `str.endswith`) can be modelled exactly. -/

/-- Python `col.endswith("_x")`: the last two characters are `_x`. -/
def endsWithUX (s : List Char) : Bool := decide (s.reverse.take 2 = ['x', '_'])

/-- Python `col.endswith("_y")`: the last two characters are `_y`. -/
def endsWithUY (s : List Char) : Bool := decide (s.reverse.take 2 = ['y', '_'])

/-- Python `col.replace('_x', '')`: removes every non-overlapping
occurrence of the two-character substring `_x`, scanning left to
right — not merely a suffix removal. -/
def stripUX : List Char → List Char
  | [] => []
  | [c] => [c]
  | c :: d :: rest =>
    if c = '_' ∧ d = 'x' then stripUX rest else c :: stripUX (d :: rest)

/-- Whether the substring `_x` occurs anywhere in the name. -/
def hasUX : List Char → Bool
  | [] => false
  | [_] => false
  | c :: d :: rest =>
    if c = '_' ∧ d = 'x' then true else hasUX (d :: rest)

/-- The legacy index column name dropped at the end of the cleanup. -/
def unnamedZero : List Char := "Unnamed: 0".toList

/-- `clean_redundant_columns` from `fix_schema_drift.py`, acting on a
table presented as a list of (column name, column payload id) pairs:
build the rename map for `_x`-suffixed columns and the drop list of
`_y`-suffixed columns from the original names, rename, drop by
(post-rename) label, and finally drop a leftover `Unnamed: 0` column
when present. -/
def clean_redundant_columns (cols : List (List Char × Nat)) : List (List Char × Nat) :=
  let cols_to_drop := (cols.map Prod.fst).filter (fun nm => endsWithUY nm)
  let renamed := cols.map (fun p => (if endsWithUX p.1 then stripUX p.1 else p.1, p.2))
  let dropped := renamed.filter (fun p => !(decide (p.1 ∈ cols_to_drop)))
  if (dropped.map Prod.fst).contains unnamedZero then
    dropped.filter (fun p => !(decide (p.1 = unnamedZero)))
  else dropped

/-! ### Entity resolution (`enrich_with_wikidata.process_raw_entry`)

The artists catalog is a dict from a normalized raw string to either a
record (`some r`) or the explicit null failure marker (`none`); absence
of the key means "never attempted".  `fetch_and_build_record` and
`split_collaborations` enter `process_raw_entry` as function
parameters, so the cache-skipping logic is verified for every resolver
and splitter; the resolver itself is embedded separately below. -/

/-- A resolved artist record as built by `fetch_and_build_record`:
`{"mbid": ..., "qid": ..., "nationality": ...}`. -/
structure ArtRec where
  mbid : String
  qid : Option String
  nationality : Option String
deriving DecidableEq, Repr

/-- Python `\s` on the characters this data can contain. -/
def isPySpace (c : Char) : Bool :=
  c == ' ' || c == '\t' || c == '\n' || c == '\r' || c == '\x0b' || c == '\x0c'

/-- `re.sub(r'\s+', ' ', s)`: every maximal whitespace run becomes one
space. -/
def squeezeWS : List Char → List Char
  | [] => []
  | c :: rest =>
    if isPySpace c then
      match rest with
      | [] => [' ']
      | d :: _ => if isPySpace d then squeezeWS rest else ' ' :: squeezeWS rest
    else c :: squeezeWS rest

/-- Python `s.strip()`. -/
def pyStrip (s : List Char) : List Char :=
  ((s.dropWhile isPySpace).reverse.dropWhile isPySpace).reverse

/-- `re.sub(r'\s+', ' ', raw_string.strip())`: the whitespace
normalization applied to the raw artist string. -/
def normWS (s : String) : String := (squeezeWS (pyStrip s.toList)).asString

/-- The `needs_processing` test of `process_raw_entry`, identical for
the full string and for each token: absent key, or a present record
(`isinstance(…, dict)`) whose `qid` is null.  The explicit null marker
(`some none`) does not need processing. -/
def keyNeedsProcessing (cat : List (String × Option ArtRec)) (k : String) : Bool :=
  match lookupA cat k with
  | none => true
  | some none => false
  | some (some r) => decide (r.qid = none)

/-- One token of pass 2 of `process_raw_entry`: fetch and store the
token when it needs processing, recording the issued query. -/
def pass2Step (fetch : String → Option ArtRec)
    (acc : List (String × Option ArtRec) × List String) (tok : String) :
    List (String × Option ArtRec) × List String :=
  if keyNeedsProcessing acc.1 tok then
    (updateA acc.1 tok (fetch tok), acc.2 ++ [tok])
  else acc

/-- Pass 2 of `process_raw_entry`: when the full string is mapped to
`None` in the catalog (Python `…get(raw_clean) is None`, also true for
an absent key), split and process each token. -/
def pass2 (fetch : String → Option ArtRec) (split : String → List String)
    (rc : String) (st : List (String × Option ArtRec) × List String) :
    List (String × Option ArtRec) × List String :=
  match lookupA st.1 rc with
  | some (some _) => st
  | _ => (split rc).foldl (pass2Step fetch) st

/-- `process_raw_entry` from `enrich_with_wikidata.py`.  Returns the
updated catalog together with the list of raw strings for which a
catalog query (`fetch_and_build_record` call) was issued, in order. -/
def process_raw_entry (fetch : String → Option ArtRec) (split : String → List String)
    (raw : String) (cat : List (String × Option ArtRec)) :
    List (String × Option ArtRec) × List String :=
  let rc := normWS raw
  if keyNeedsProcessing cat rc then
    match fetch rc with
    | some hit => (updateA cat rc (some hit), [rc])
    | none => pass2 fetch split rc (updateA cat rc none, [rc])
  else pass2 fetch split rc (cat, [])

/-! ### Prominence extractor (`musicbrainz_client.get_track_prominence`)

The parsed `musicbrainzngs` search response is embedded structurally:
an absent dict key is `none`, and the `int(medium["track-count"])`
conversion is `Option Nat` inside an `Option` so that a present but
non-numeric value raises (the inner `none`), which the function's
catch-all absorbs.  The two searches (strict query, loose fallback
query) enter as `Except` parameters: `.error` is a raised exception,
`.ok` the parsed `recording-list`. -/

/-- The `release-group` sub-dict of a release. -/
structure MBRelGroup where
  rgType : Option String
  secondaryTypes : Option (List String)
deriving DecidableEq, Repr

/-- One entry of a medium's `track-list`. -/
structure MBTrack where
  number : Option String
deriving DecidableEq, Repr

/-- One entry of a release's `medium-list`. -/
structure MBMedium where
  trackList : Option (List MBTrack)
  trackCount : Option (Option Nat)
deriving DecidableEq, Repr

/-- One entry of a recording's `release-list`. -/
structure MBRelease where
  status : Option String
  relGroup : Option MBRelGroup
  date : Option String
  title : Option String
  mediumList : Option (List MBMedium)
deriving DecidableEq, Repr

/-- One entry of the search result's `recording-list`. -/
structure MBRecording where
  releaseList : Option (List MBRelease)
deriving DecidableEq, Repr

/-- `rel.get("status", "")`. -/
def relStatus (rel : MBRelease) : String := rel.status.getD ""

/-- `rel.get("release-group", {}).get("type", "unknown")`. -/
def relPrimaryType (rel : MBRelease) : String :=
  match rel.relGroup with
  | none => "unknown"
  | some g => g.rgType.getD "unknown"

/-- `rel.get("release-group", {}).get("secondary-type-list", [])`. -/
def relSecondary (rel : MBRelease) : List String :=
  match rel.relGroup with
  | none => []
  | some g => g.secondaryTypes.getD []

/-- `rel.get("date", "")`. -/
def relDate (rel : MBRelease) : String := rel.date.getD ""

/-- The `bad_types` secondary-type blocklist. -/
def badTypes : List String :=
  ["Compilation", "Live", "Mixtape/Street", "DJ-mix", "Broadcast", "Interview"]

/-- An entry of `valid_releases`: the release, its date and its primary
type as captured by the filter loop. -/
structure ValidRelease where
  release : MBRelease
  date : String
  vtype : String
deriving DecidableEq, Repr

/-- Filter steps 1-4 of the extraction loop: official status, no
blocklisted secondary type, primary type in {Album, Single, EP}, and at
least 4 characters of date. -/
def releasePassesFilters (rel : MBRelease) : Bool :=
  decide (relStatus rel = "Official")
    && !((relSecondary rel).any (fun t => badTypes.contains t))
    && (["Album", "Single", "EP"] : List String).contains (relPrimaryType rel)
    && decide (4 ≤ (relDate rel).length)

/-- The `valid_releases` list: every release of every returned
recording that passes the filters, in response order. -/
def validReleases (recs : List MBRecording) : List ValidRelease :=
  recs.flatMap (fun rec =>
    (rec.releaseList.getD []).filterMap (fun rel =>
      if releasePassesFilters rel then
        some ⟨rel, relDate rel, relPrimaryType rel⟩
      else none))

/-- `type_priority.get(x["type"], 3)` with Album 0, EP 1, Single 2. -/
def typePri (t : String) : Nat :=
  if t = "Album" then 0 else if t = "EP" then 1 else if t = "Single" then 2 else 3

/-- Python's `<` on strings: strict lexicographic comparison of the
code-point sequences. -/
def charListLT : List Char → List Char → Bool
  | [], [] => false
  | [], _ :: _ => true
  | _ :: _, [] => false
  | c :: cs, d :: ds =>
    if c.toNat < d.toNat then true
    else if d.toNat < c.toNat then false
    else charListLT cs ds

/-- The sort key of the two-tier sort: `(date[:4], priority, date)`,
with the strings viewed as their character lists. -/
def sortKey (v : ValidRelease) : List Char × Nat × List Char :=
  (v.date.toList.take 4, typePri v.vtype, v.date.toList)

/-- Non-strict lexicographic order on the sort-key tuples, exactly the
tuple comparison Python's `list.sort(key=…)` induces: earlier
components strictly first, the last component non-strictly. -/
def tupLE (x y : List Char × Nat × List Char) : Bool :=
  charListLT x.1 y.1 ||
    (decide (x.1 = y.1) && (decide (x.2.1 < y.2.1) ||
      (decide (x.2.1 = y.2.1) && !(charListLT y.2.2 x.2.2))))

/-- Comparison of two candidates by lexicographic order on their sort
keys. -/
def keyLE (a b : ValidRelease) : Bool := tupLE (sortKey a) (sortKey b)

/-- Stable insertion: the new element goes after every element that
compares less-or-equal to it, as in a stable sort. -/
def stableInsert (x : ValidRelease) : List ValidRelease → List ValidRelease
  | [] => [x]
  | y :: ys => if keyLE y x then y :: stableInsert x ys else x :: y :: ys

/-- Python's `list.sort` (a stable sort) by the two-tier key, embedded
as stable insertion sort: for a fixed total preorder the stable sorted
permutation is unique, so this computes exactly what Timsort does. -/
def stableSort (l : List ValidRelease) : List ValidRelease :=
  l.foldl (fun acc x => stableInsert x acc) []

/-- The absolute fallback `recordings[0]["release-list"][0]`, guarded by
`"release-list" in recordings[0] and recordings[0]["release-list"]`. -/
def fallbackRelease : List MBRecording → Option MBRelease
  | [] => none
  | rec :: _ =>
    match rec.releaseList with
    | some (rel :: _) => some rel
    | _ => none

/-- `int(digits)` for a non-empty string of decimal digits. -/
def digitsToNat (ds : List Char) : Nat :=
  ds.foldl (fun acc c => 10 * acc + (c.toNat - 48)) 0

/-- Step 4 of `get_track_prominence` (metric extraction from the chosen
release), mutating `result` field by field in source order.  The `Bool`
is true when `int(medium["track-count"])` raised, in which case the
partially mutated record is what the function's catch-all returns:
`found` is only set on the non-raising paths, after the track data. -/
def extractMetrics (best : MBRelease) : ProminenceResult × Bool :=
  let baseType := relPrimaryType best
  let rType :=
    if (relSecondary best).contains "Compilation" then "Compilation" else baseType
  let r1 : ProminenceResult :=
    { initResult with
        release_title := some (best.title.getD "unknown"),
        release_date := some (best.date.getD "unknown"),
        release_type := rType }
  match best.mediumList with
  | some (medium :: _) =>
    let r2 :=
      match medium.trackList with
      | some (track :: _) =>
        let digits := (track.number.getD "").toList.filter Char.isDigit
        if digits.isEmpty then r1
        else { r1 with track_number := some (digitsToNat digits) }
      | _ => r1
    match medium.trackCount with
    | some none => (r2, true)
    | some (some n) => ({ r2 with track_count := some n, found := true }, false)
    | none => ({ r2 with found := true }, false)
  | _ => ({ r1 with found := true }, false)

/-- The strict query, then the loose fallback query when the strict one
returned an empty `recording-list`; a raised search exception
propagates to the function's catch-all. -/
def resolveRecordings (strict loose : Except Unit (List MBRecording)) :
    Except Unit (List MBRecording) :=
  match strict with
  | .error e => .error e
  | .ok [] => loose
  | .ok recs => .ok recs

/-- `get_track_prominence` from `musicbrainz_client.py`, parametrized by
the outcomes of the two searches.  Besides the result record it returns
two ghost observations: whether the catch-all `except` ran, and which
release was selected (`none` when the function returned before
selecting one). -/
def get_track_prominence (strict loose : Except Unit (List MBRecording)) :
    ProminenceResult × Bool × Option MBRelease :=
  match resolveRecordings strict loose with
  | .error _ => (initResult, true, none)
  | .ok [] => (initResult, false, none)
  | .ok (rec0 :: recs) =>
    match stableSort (validReleases (rec0 :: recs)) with
    | v :: _ =>
      let er := extractMetrics v.release
      (er.1, er.2, some v.release)
    | [] =>
      match fallbackRelease (rec0 :: recs) with
      | some rel =>
        let er := extractMetrics rel
        (er.1, er.2, some rel)
      | none => (initResult, false, none)

/-! ### Rate-limited catalog clients (`enrich_with_wikidata.py`)

Each `requests.get` outcome is either a raised exception (`exc`:
timeout, connection error) or a response carrying a status code and a
body, where body `none` means `resp.json()` raises (malformed body).
The `@retry(stop=stop_after_attempt(3), wait=wait_exponential(…))`
decorator is embedded as `tenacityRetry` over the three per-attempt
outcomes: a raised exception consumes an attempt, and after the last
attempt the failure propagates (tenacity re-raises); the waits between
attempts are wall-clock behaviour and are not part of the value
semantics embedded here. -/

deriving instance DecidableEq for Except

/-- Outcome of one `requests.get`. -/
inductive HttpOutcome (β : Type) where
  | exc : HttpOutcome β
  | resp (status : Nat) (body : Option β) : HttpOutcome β
deriving DecidableEq, Repr

/-- Retry up to the length of the attempt list: first `.ok` wins, an
`.error` moves on to the next attempt, and an `.error` on the last
attempt propagates. -/
def tenacityRetry {α β : Type} (f : α → Except Unit β) : List α → Except Unit β
  | [] => .error ()
  | [o] => f o
  | o :: o2 :: rest =>
    match f o with
    | .ok v => .ok v
    | .error _ => tenacityRetry f (o2 :: rest)

/-- The `area` sub-dict of a search artist. -/
structure MBArea where
  name : Option String
deriving DecidableEq, Repr

/-- One entry of the artist search response's `artists` list. -/
structure MBArtist where
  id : String
  name : String
  score : Int
  area : Option MBArea
deriving DecidableEq, Repr

/-- The parsed body of the artist search response. -/
structure MBSearchBody where
  artists : List MBArtist
deriving DecidableEq, Repr

/-- The dict returned by a successful `search_musicbrainz`. -/
structure MBData where
  mbid : String
  name : String
  mb_country : Option String
deriving DecidableEq, Repr

/-- One attempt of `search_musicbrainz` (the body of the decorated
function): an exception is re-raised after logging; a 200 response with
a parsable body and a first artist scoring above 85 yields the record;
every other response falls through to `return None`. -/
def searchAttempt (o : HttpOutcome MBSearchBody) : Except Unit (Option MBData) :=
  match o with
  | .exc => .error ()
  | .resp st body =>
    if st = 200 then
      match body with
      | none => .error ()
      | some data =>
        match data.artists with
        | [] => .ok none
        | artist :: _ =>
          if 85 < artist.score then
            .ok (some { mbid := artist.id, name := artist.name,
                        mb_country := (artist.area.getD { name := none }).name })
          else .ok none
    else .ok none

/-- `search_musicbrainz` with its three tenacity attempts. -/
def search_musicbrainz (o1 o2 o3 : HttpOutcome MBSearchBody) :
    Except Unit (Option MBData) :=
  tenacityRetry searchAttempt [o1, o2, o3]

/-- The `url` sub-dict of a relation. -/
structure MBUrl where
  resource : Option String
deriving DecidableEq, Repr

/-- One entry of the artist lookup response's `relations` list. -/
structure MBRelation where
  relType : Option String
  url : Option MBUrl
deriving DecidableEq, Repr

/-- The parsed body of the artist relations lookup. -/
structure MBRelBody where
  relations : List MBRelation
deriving DecidableEq, Repr

/-- `re.search(r'Q\d+', url)`: the leftmost `Q` immediately followed by
at least one decimal digit, taken with its maximal digit run. -/
def qSearch : List Char → Option (List Char)
  | [] => none
  | c :: rest =>
    if c = 'Q' then
      match rest.takeWhile Char.isDigit with
      | [] => qSearch rest
      | ds => some ('Q' :: ds)
    else qSearch rest

/-- The relation loop of `get_wikidata_qid_from_mb`: the first
`wikidata`-typed relation whose resource URL contains a QID wins. -/
def findQid : List MBRelation → Option String
  | [] => none
  | rel :: rest =>
    if rel.relType = some "wikidata" then
      match qSearch ((rel.url.getD { resource := none }).resource.getD "").toList with
      | some q => some q.asString
      | none => findQid rest
    else findQid rest

/-- One attempt of `get_wikidata_qid_from_mb`. -/
def qidAttempt (o : HttpOutcome MBRelBody) : Except Unit (Option String) :=
  match o with
  | .exc => .error ()
  | .resp st body =>
    if st = 200 then
      match body with
      | none => .error ()
      | some data => .ok (findQid data.relations)
    else .ok none

/-- `get_wikidata_qid_from_mb` with its three tenacity attempts. -/
def get_wikidata_qid_from_mb (o1 o2 o3 : HttpOutcome MBRelBody) :
    Except Unit (Option String) :=
  tenacityRetry qidAttempt [o1, o2, o3]

/-- The parsed body of the SPARQL query response: each binding is
`none` for an empty (falsy) binding dict, which the comprehension's
`if r` skips, or `some v` carrying `r["countryName"]["value"]` (per the
SPARQL JSON results format a non-empty binding carries its value). -/
structure WDBody where
  bindings : List (Option String)
deriving DecidableEq, Repr

/-- One attempt of `enrich_from_wikidata`: a non-200 response falls
through to `return []`. -/
def wdAttempt (o : HttpOutcome WDBody) : Except Unit (List String) :=
  match o with
  | .exc => .error ()
  | .resp st body =>
    if st = 200 then
      match body with
      | none => .error ()
      | some data => .ok (data.bindings.filterMap id)
    else .ok []

/-- `enrich_from_wikidata` with its three tenacity attempts. -/
def enrich_from_wikidata (o1 o2 o3 : HttpOutcome WDBody) :
    Except Unit (List String) :=
  tenacityRetry wdAttempt [o1, o2, o3]

/-- Python `c.strip()` on a string value. -/
def pyStripS (s : String) : String := (pyStrip s.toList).asString

/-- `list(dict.fromkeys(…))`: deduplication keeping first occurrences
in order. -/
def pyDedupAux (seen : List String) : List String → List String
  | [] => []
  | c :: rest =>
    if seen.contains c then pyDedupAux seen rest
    else c :: pyDedupAux (seen ++ [c]) rest

/-- `list(dict.fromkeys(l))`. -/
def pyDedup (l : List String) : List String := pyDedupAux [] l

/-- `fetch_and_build_record` from `enrich_with_wikidata.py`,
parametrized by the attempt outcomes of the three decorated clients:
a failed or low-confidence MusicBrainz search yields `none` (the
not-found sentinel); QID and country lookups degrade to `none` / `[]`
when they fail; country signals from both sources are stripped,
deduplicated keeping first-seen order and joined with " / ". -/
def fetch_and_build_record (m1 m2 m3 : HttpOutcome MBSearchBody)
    (q1 q2 q3 : HttpOutcome MBRelBody) (w1 w2 w3 : HttpOutcome WDBody) :
    Option ArtRec :=
  match search_musicbrainz m1 m2 m3 with
  | .error _ => none
  | .ok none => none
  | .ok (some mbd) =>
    let qid : Option String :=
      match get_wikidata_qid_from_mb q1 q2 q3 with
      | .error _ => none
      | .ok v => v
    let wd_countries : List String :=
      match qid with
      | none => []
      | some _ =>
        match enrich_from_wikidata w1 w2 w3 with
        | .error _ => []
        | .ok l => l
    let mbc : List String :=
      match mbd.mb_country with
      | some c => if c = "" then [] else [c]
      | none => []
    let all_countries := mbc ++ (if wd_countries.isEmpty then [] else wd_countries)
    let final : Option String :=
      if all_countries.isEmpty then none
      else some (String.intercalate " / " (pyDedup (all_countries.map pyStripS)))
    some { mbid := mbd.mbid, qid := qid, nationality := final }

/-! ### Request/sleep traces (pacing, C9)

Each client attempt is abstracted to the sequence of outbound-request
and `time.sleep` events it performs, in program order; sleeps are in
milliseconds. -/

/-- An observable pacing event. -/
inductive PEvent where
  | req : PEvent
  | sleepMs (ms : Nat) : PEvent
deriving DecidableEq, Repr

/-- Whether every request in the trace is immediately followed by a
sleep (the "fixed minimum delay after every request" discipline). -/
def paced : List PEvent → Bool
  | [] => true
  | PEvent.sleepMs _ :: rest => paced rest
  | [PEvent.req] => false
  | PEvent.req :: PEvent.req :: _ => false
  | PEvent.req :: PEvent.sleepMs _ :: rest => paced rest

/-- Trace of one `search_musicbrainz` attempt: `requests.get` then
`time.sleep(1.2)` — but the sleep is only reached when the request
returned a response; a raised request skips it. -/
def mbSearchAttemptTrace (o : HttpOutcome MBSearchBody) : List PEvent :=
  match o with
  | .exc => [.req]
  | .resp _ _ => [.req, .sleepMs 1200]

/-- Trace of one `get_wikidata_qid_from_mb` attempt (same pattern). -/
def mbQidAttemptTrace (o : HttpOutcome MBRelBody) : List PEvent :=
  match o with
  | .exc => [.req]
  | .resp _ _ => [.req, .sleepMs 1200]

/-- Trace of one `enrich_from_wikidata` attempt: the SPARQL client has
no `time.sleep` at all. -/
def wdAttemptTrace (o : HttpOutcome WDBody) : List PEvent :=
  match o with
  | .exc => [.req]
  | .resp _ _ => [.req]

/-- Trace of one `get_track_prominence` call: `time.sleep(1.0)` happens
before the strict search request, and the loose fallback request is
issued immediately — with no intervening sleep — when the strict search
returned an empty recording list. -/
def prominenceTrace (strict : Except Unit (List MBRecording)) : List PEvent :=
  PEvent.sleepMs 1000 :: PEvent.req ::
    (match strict with
     | .ok [] => [PEvent.req]
     | _ => [])

/-! ### Concrete response fixtures

Concrete parsed-response values used by the example theorems below:
the spec's Single-vs-Album ordering example, a pair of releases with
identical sort keys, a first recording without releases followed by a
filtered-out release, a release whose `track-count` value is present
but non-numeric, and a high-confidence artist search response. -/

/-- A Single released in "2012" (the spec's ordering example). -/
def exRelSingle : MBRelease :=
  { status := some "Official",
    relGroup := some { rgType := some "Single", secondaryTypes := none },
    date := some "2012", title := some "S", mediumList := none }

/-- An Album released on "2012-03-01" (the spec's ordering example). -/
def exRelAlbum : MBRelease :=
  { status := some "Official",
    relGroup := some { rgType := some "Album", secondaryTypes := none },
    date := some "2012-03-01", title := some "A", mediumList := none }

/-- The recording list of the spec's ordering example. -/
def exRecsSpec : List MBRecording :=
  [{ releaseList := some [exRelSingle, exRelAlbum] }]

/-- An Album "A1" dated "2012-01-01". -/
def exRelTieA : MBRelease :=
  { status := some "Official",
    relGroup := some { rgType := some "Album", secondaryTypes := none },
    date := some "2012-01-01", title := some "A1", mediumList := none }

/-- A distinct Album "A2" with exactly the same sort key as `exRelTieA`. -/
def exRelTieB : MBRelease :=
  { status := some "Official",
    relGroup := some { rgType := some "Album", secondaryTypes := none },
    date := some "2012-01-01", title := some "A2", mediumList := none }

/-- A release that fails the official-status filter. -/
def exRelUnofficial : MBRelease :=
  { status := none,
    relGroup := some { rgType := some "Album", secondaryTypes := none },
    date := some "2012", title := some "B", mediumList := none }

/-- A response whose first recording has no release list while the
second carries one (filtered-out) release. -/
def exRecsFirstBare : List MBRecording :=
  [{ releaseList := none }, { releaseList := some [exRelUnofficial] }]

/-- An otherwise valid release whose first medium's `track-count` value
does not parse as an integer, so `int(medium["track-count"])` raises
mid-extraction. -/
def exRelRaise : MBRelease :=
  { status := some "Official",
    relGroup := some { rgType := some "Album", secondaryTypes := none },
    date := some "2001-01-01", title := some "T",
    mediumList := some [{ trackList := some [{ number := some "7A" }],
                          trackCount := some none }] }

/-- A 200 artist-search response whose first artist scores above the
confidence threshold. -/
def exOkSearch : HttpOutcome MBSearchBody :=
  .resp 200 (some { artists := [{ id := "m1", name := "A", score := 100, area := none }] })

/-! ## Helper lemmas -/

theorem lookupA_cons {α : Type} (p : String × α) (rest : List (String × α)) (k : String) :
    lookupA (p :: rest) k = if p.1 = k then some p.2 else lookupA rest k := rfl

theorem lookupA_append_of_isSome {α : Type} {m1 : List (String × α)} (m2 : List (String × α))
    {k : String} (h : (lookupA m1 k).isSome) : lookupA (m1 ++ m2) k = lookupA m1 k := by
  induction m1 with
  | nil => simp [lookupA] at h
  | cons p rest ih =>
    rw [List.cons_append, lookupA_cons, lookupA_cons]
    by_cases hk : p.1 = k
    · rw [if_pos hk, if_pos hk]
    · rw [if_neg hk, if_neg hk]
      rw [lookupA_cons, if_neg hk] at h
      exact ih h

theorem lookupA_append_of_none {α : Type} {m1 : List (String × α)} (m2 : List (String × α))
    {k : String} (h : lookupA m1 k = none) : lookupA (m1 ++ m2) k = lookupA m2 k := by
  induction m1 with
  | nil => rfl
  | cons p rest ih =>
    rw [lookupA_cons] at h
    by_cases hk : p.1 = k
    · rw [if_pos hk] at h; cases h
    · rw [if_neg hk] at h
      rw [List.cons_append, lookupA_cons, if_neg hk]
      exact ih h

theorem lookupA_map_update_ne {α : Type} (m : List (String × α)) (k k' : String) (v : α)
    (h : k' ≠ k) :
    lookupA (m.map (fun p => if p.1 = k then (k, v) else p)) k' = lookupA m k' := by
  induction m with
  | nil => rfl
  | cons p rest ih =>
    by_cases hp : p.1 = k
    · have hkk : ¬(k = k') := fun e => h e.symm
      rw [List.map_cons, if_pos hp, lookupA_cons, lookupA_cons, if_neg hkk, if_neg, ih]
      rw [hp]; exact hkk
    · rw [List.map_cons, if_neg hp, lookupA_cons, lookupA_cons]
      by_cases hp' : p.1 = k'
      · rw [if_pos hp', if_pos hp']
      · rw [if_neg hp', if_neg hp', ih]

theorem lookupA_updateA_ne {α : Type} (m : List (String × α)) {k k' : String} (v : α)
    (h : k' ≠ k) : lookupA (updateA m k v) k' = lookupA m k' := by
  unfold updateA
  split
  · exact lookupA_map_update_ne m k k' v h
  · by_cases hs : (lookupA m k').isSome
    · exact lookupA_append_of_isSome _ hs
    · have hnone := Option.not_isSome_iff_eq_none.mp hs
      rw [lookupA_append_of_none _ hnone, hnone, lookupA_cons]
      rw [if_neg fun e => h e.symm]
      rfl

/-! ## C5: idempotence of the checkpointed runner -/

theorem enrichStep_preserves (client : String → String → ProminenceResult)
    (acc : List (String × ProminenceResult) × Nat) (task : String × String) {k : String}
    (h : (lookupA acc.1 k).isSome) : (lookupA (enrichStep client acc task).1 k).isSome := by
  unfold enrichStep
  cases hl : lookupA acc.1 (workKey task.1 task.2) with
  | some v => exact h
  | none =>
    simp only
    rw [lookupA_append_of_isSome _ h]
    exact h

theorem enrichStep_present_after (client : String → String → ProminenceResult)
    (acc : List (String × ProminenceResult) × Nat) (t : String × String) :
    (lookupA (enrichStep client acc t).1 (workKey t.1 t.2)).isSome := by
  unfold enrichStep
  cases hl : lookupA acc.1 (workKey t.1 t.2) with
  | some v => simp [hl]
  | none =>
    simp only
    rw [lookupA_append_of_none _ hl]
    simp [lookupA_cons]

theorem enrichFold_preserves (client : String → String → ProminenceResult)
    (ts : List (String × String)) (acc : List (String × ProminenceResult) × Nat) {k : String}
    (h : (lookupA acc.1 k).isSome) :
    (lookupA (ts.foldl (enrichStep client) acc).1 k).isSome := by
  induction ts generalizing acc with
  | nil => exact h
  | cons t ts ih => exact ih _ (enrichStep_preserves client acc t h)

theorem enrichFold_key_present (client : String → String → ProminenceResult)
    (ts : List (String × String)) (acc : List (String × ProminenceResult) × Nat)
    {t : String × String} (ht : t ∈ ts) :
    (lookupA (ts.foldl (enrichStep client) acc).1 (workKey t.1 t.2)).isSome := by
  induction ts generalizing acc with
  | nil => cases ht
  | cons t0 ts ih =>
    rw [List.foldl_cons]
    rcases List.mem_cons.mp ht with h0 | hmem
    · subst h0
      exact enrichFold_preserves client ts _ (enrichStep_present_after client acc t)
    · exact ih _ hmem

theorem enrichFold_skip (client : String → String → ProminenceResult)
    (ts : List (String × String)) (res : List (String × ProminenceResult)) (n : Nat)
    (h : ∀ t ∈ ts, (lookupA res (workKey t.1 t.2)).isSome) :
    ts.foldl (enrichStep client) (res, n) = (res, n) := by
  induction ts with
  | nil => rfl
  | cons t ts ih =>
    have h0 := h t (List.mem_cons_self t ts)
    have hstep : enrichStep client (res, n) t = (res, n) := by
      unfold enrichStep
      cases hl : lookupA res (workKey t.1 t.2) with
      | some v => rfl
      | none => rw [hl] at h0; cases h0
    rw [List.foldl_cons, hstep]
    exact ih fun u hu => h u (List.mem_cons_of_mem t hu)

/-- Claim C5: re-running the checkpointed MusicBrainz enrichment runner
over the same work list, starting from the cache the first run
produced, issues zero client requests and returns that cache unchanged:
every composite `"{artist} || {track}"` key already present in the
results mapping is skipped, whether its stored record was successful or
not-found (the skip tests only key presence). -/
theorem runEnrich_idempotent (client : String → String → ProminenceResult)
    (tasks : List (String × String)) (results : List (String × ProminenceResult)) :
    runEnrich client tasks (runEnrich client tasks results).1 =
      ((runEnrich client tasks results).1, 0) := by
  unfold runEnrich
  exact enrichFold_skip client tasks _ 0 fun t ht =>
    enrichFold_key_present client tasks (results, 0) ht

/-! ## C7: neutral defaults for keys absent from the cache -/

/-- Claim C7: for a row whose composite key is absent from the
MusicBrainz cache, `extract_logic` yields exactly
`mb_found=0, mb_is_single=1, mb_track_number=1, mb_track_count=1,
mb_prominence_ratio=0.0`, leaving no nulls. -/
theorem extract_logic_absent (mb_data : List (String × MBCachedRec))
    (artist_name song_name : String)
    (h : lookupA mb_data (workKey artist_name song_name) = none) :
    extract_logic mb_data artist_name song_name = ⟨0, 1, 1, 1, 0⟩ := by
  unfold extract_logic
  rw [h]

theorem extract_logic_absent_witness :
    extract_logic [(workKey "B" "T",
      { found := true, release_type := some "Album",
        track_number := some 3, track_count := some 12 })] "A" "S" = ⟨0, 1, 1, 1, 0⟩ :=
  extract_logic_absent _ "A" "S" (by decide)

/-! ## C10: coercion and rounding of the prominence ratio -/

theorem one_le_orOne (o : Option Nat) : 1 ≤ orOne o := by
  cases o with
  | none => exact le_refl 1
  | some n => cases n with
    | zero => exact le_refl 1
    | succ m => exact Nat.succ_le_succ (Nat.zero_le m)

theorem rheNat_lower (n c : Nat) : 10000 * n / c ≤ rheNat n c := by
  simp only [rheNat]
  split_ifs <;> omega

theorem rheNat_big {n c : Nat} (hc1 : 0 < c) (hc : c ≤ 10000) (hlt : c < n) :
    10001 ≤ rheNat n c := by
  have hx : 10001 * c ≤ 10000 * n := by omega
  have hdiv : 10001 ≤ 10000 * n / c := (Nat.le_div_iff_mul_le hc1).mpr hx
  exact le_trans hdiv (rheNat_lower n c)

theorem round4_gt_one {n c : Nat} (hc1 : 0 < c) (hc : c ≤ 10000) (hlt : c < n) :
    1 < round4 n c := by
  have h1 : 10001 ≤ rheNat n c := rheNat_big hc1 hc hlt
  have h2 : (10001 : Rat) ≤ (rheNat n c : Rat) := by exact_mod_cast h1
  unfold round4
  rw [lt_div_iff₀ (by norm_num : (0 : Rat) < 10000)]
  linarith

/-- Claim C10, counterexample: a cached record with
`track_number = 100001 > track_count = 100000` gets prominence ratio
`round(100001/100000, 4) = round(1.00001, 4) = 1.0`, not a value
exceeding 1.0 — rounding to 4 decimals collapses the excess, so the
claim's "exceeds 1.0 whenever track_number is greater than track_count"
fails at this input. -/
theorem extract_logic_ratio_collapse :
    extract_logic [(workKey "A" "S",
      { found := true, release_type := some "Album",
        track_number := some 100001, track_count := some 100000 })] "A" "S" =
      ⟨1, 0, 100001, 100000, 1⟩ ∧ (100000 : Nat) < 100001 := by
  constructor
  · have h : rheNat 100001 100000 = 10000 := by decide
    simp [extract_logic, lookupA, workKey, orOne, round4, h]
  · decide

/-- Claim C10 (amended): for every cached record with a truthy `found`,
`extract_logic` coerces a missing, null or zero `track_number` /
`track_count` to 1, so `mb_track_count` is at least 1 and the division
is never by zero; the ratio is `round(track_number / track_count, 4)`
with no clamping, and it exceeds 1.0 whenever the recorded
`track_number` is greater than the `track_count`, provided
`track_count ≤ 10000` — for larger counts the 4-decimal rounding can
collapse the ratio back to exactly 1.0. -/
theorem extract_logic_found_bounds (mb_data : List (String × MBCachedRec))
    (artist_name song_name : String) (data : MBCachedRec)
    (hl : lookupA mb_data (workKey artist_name song_name) = some data)
    (hf : data.found = true) :
    extract_logic mb_data artist_name song_name =
      ⟨1,
       if data.release_type.getD "unknown" = "Single" ∨
          data.release_type.getD "unknown" = "EP" then 1 else 0,
       orOne data.track_number, orOne data.track_count,
       round4 (orOne data.track_number) (orOne data.track_count)⟩ ∧
    1 ≤ orOne data.track_number ∧ 1 ≤ orOne data.track_count ∧
    (orOne data.track_count ≤ 10000 →
      orOne data.track_count < orOne data.track_number →
      1 < round4 (orOne data.track_number) (orOne data.track_count)) := by
  refine ⟨?_, one_le_orOne _, one_le_orOne _, fun h1 h2 =>
    round4_gt_one (Nat.lt_of_lt_of_le Nat.zero_lt_one (one_le_orOne _)) h1 h2⟩
  unfold extract_logic
  rw [hl]
  dsimp only
  rw [if_pos hf]
  rw [if_pos (Nat.lt_of_lt_of_le Nat.zero_lt_one (one_le_orOne data.track_count))]

theorem extract_logic_found_bounds_witness :
    1 < round4 (orOne (some 5)) (orOne (some 4)) :=
  (extract_logic_found_bounds
    [(workKey "A" "S", ⟨true, some "Album", some 5, some 4⟩)] "A" "S"
    ⟨true, some "Album", some 5, some 4⟩ (by decide) rfl).2.2.2 (by decide) (by decide)

/-! ## C1: entity-resolution cache skipping -/

/-- A catalog entry that `process_raw_entry` must never re-query: the
explicit null failure marker, or a record whose `qid` is resolved. -/
def protEntry (e : Option (Option ArtRec)) : Prop :=
  e = some none ∨ ∃ r : ArtRec, e = some (some r) ∧ r.qid ≠ none

theorem not_needs_of_prot {cat : List (String × Option ArtRec)} {k : String}
    (hp : protEntry (lookupA cat k)) : keyNeedsProcessing cat k = false := by
  rcases hp with h1 | ⟨r, h2, hq⟩
  · simp [keyNeedsProcessing, h1]
  · simp [keyNeedsProcessing, h2, hq]

theorem pass2_fold_protected (fetch : String → Option ArtRec) (toks : List String)
    (t : String) :
    ∀ acc : List (String × Option ArtRec) × List String,
      protEntry (lookupA acc.1 t) → t ∉ acc.2 →
      t ∉ (toks.foldl (pass2Step fetch) acc).2 := by
  induction toks with
  | nil => intro acc hp hn; exact hn
  | cons tok toks ih =>
    intro acc hp hn
    rw [List.foldl_cons]
    by_cases he : tok = t
    · subst he
      have hnp : keyNeedsProcessing acc.1 tok = false := not_needs_of_prot hp
      have hstep : pass2Step fetch acc tok = acc := by
        unfold pass2Step
        rw [hnp]
        rfl
      rw [hstep]
      exact ih acc hp hn
    · apply ih
      · show protEntry (lookupA (pass2Step fetch acc tok).1 t)
        unfold pass2Step
        split
        · simp only
          rw [lookupA_updateA_ne _ _ (fun e => he e.symm)]
          exact hp
        · exact hp
      · show t ∉ (pass2Step fetch acc tok).2
        unfold pass2Step
        split
        · simp only
          intro hmem
          rcases List.mem_append.mp hmem with h1 | h2
          · exact hn h1
          · exact he (List.mem_singleton.mp h2).symm
        · exact hn

/-- Claim C1, counterexample: a key present in the catalog with a
non-null record (`{"mbid": "m", "qid": None, "nationality": None}`,
a partially resolved entity) is re-queried: `needs_processing` is true
whenever the stored record's `qid` is null, so `process_raw_entry`
issues a `fetch_and_build_record` call for the cached string "A" even
though its catalog value is not the null marker. -/
theorem process_raw_entry_counterexample :
    (process_raw_entry (fun _ => none) (fun s => [s]) "A"
      [("A", some { mbid := "m", qid := none, nationality := none })]).2 = ["A"] := by
  decide

/-- Claim C1 (amended): during `process_raw_entry`, a key whose
whitespace-normalized form is cached with a record whose `qid` is
non-null is never queried at all; and when the key is cached as the
explicit null failure marker, neither the full string nor any split
token that is itself cached as a null marker or as a `qid`-resolved
record is queried — only absent tokens and tokens cached with a
null-`qid` (partially resolved) record are fetched.  A key cached with
a non-null record whose `qid` is null is, however, re-queried. -/
theorem process_raw_entry_amended (fetch : String → Option ArtRec)
    (split : String → List String) (raw : String)
    (cat : List (String × Option ArtRec)) :
    (∀ r : ArtRec, lookupA cat (normWS raw) = some (some r) → r.qid ≠ none →
      (process_raw_entry fetch split raw cat).2 = []) ∧
    (lookupA cat (normWS raw) = some none →
      ∀ t : String, protEntry (lookupA cat t) →
        t ∉ (process_raw_entry fetch split raw cat).2) := by
  constructor
  · intro r hl hq
    have hneeds : keyNeedsProcessing cat (normWS raw) = false := by
      simp [keyNeedsProcessing, hl, hq]
    have hproc : process_raw_entry fetch split raw cat = pass2 fetch split (normWS raw) (cat, []) := by
      unfold process_raw_entry
      dsimp only
      rw [hneeds]
      rfl
    rw [hproc]
    unfold pass2
    dsimp only
    rw [hl]
  · intro hl t ht
    have hneeds : keyNeedsProcessing cat (normWS raw) = false := by
      simp [keyNeedsProcessing, hl]
    have hproc : process_raw_entry fetch split raw cat = pass2 fetch split (normWS raw) (cat, []) := by
      unfold process_raw_entry
      dsimp only
      rw [hneeds]
      rfl
    have hpass : pass2 fetch split (normWS raw) (cat, []) =
        (split (normWS raw)).foldl (pass2Step fetch) (cat, []) := by
      unfold pass2
      dsimp only
      rw [hl]
    rw [hproc, hpass]
    exact pass2_fold_protected fetch _ t (cat, []) ht (List.not_mem_nil t)

theorem process_raw_entry_amended_witness :
    (process_raw_entry (fun _ => none) (fun s => [s]) "B"
      [("B", some { mbid := "m", qid := some "Q1", nationality := none })]).2 = [] :=
  (process_raw_entry_amended (fun _ => none) (fun s => [s]) "B"
    [("B", some { mbid := "m", qid := some "Q1", nationality := none })]).1
    { mbid := "m", qid := some "Q1", nationality := none } (by decide) (by decide)

/-! ## C8: schema-drift column cleanup -/

theorem endsWithUX_decomp {s : List Char} (h : endsWithUX s = true) :
    ∃ t, s = t ++ ['_', 'x'] := by
  have h2 : s.reverse.take 2 = ['x', '_'] := of_decide_eq_true h
  refine ⟨(s.reverse.drop 2).reverse, ?_⟩
  have h3 : s.reverse = ['x', '_'] ++ s.reverse.drop 2 := by
    conv_lhs => rw [← List.take_append_drop 2 s.reverse]
    rw [h2]
  calc s = s.reverse.reverse := (List.reverse_reverse s).symm
    _ = (['x', '_'] ++ s.reverse.drop 2).reverse := by rw [← h3]
    _ = (s.reverse.drop 2).reverse ++ ['_', 'x'] := by rw [List.reverse_append]; rfl

theorem endsWithUX_append_ux (t : List Char) : endsWithUX (t ++ ['_', 'x']) = true := by
  apply decide_eq_true
  rw [List.reverse_append]
  rfl

theorem hasUX_append_ux (t : List Char) : hasUX (t ++ ['_', 'x']) = true := by
  induction t with
  | nil => rfl
  | cons c t' ih =>
    cases t' with
    | nil =>
      show hasUX [c, '_', 'x'] = true
      simp only [hasUX]
      split <;> rfl
    | cons d t'' =>
      show hasUX (c :: d :: (t'' ++ ['_', 'x'])) = true
      simp only [hasUX]
      split
      · rfl
      · exact ih

theorem stripUX_append_ux : ∀ (t : List Char), hasUX t = false →
    stripUX (t ++ ['_', 'x']) = t
  | [], _ => rfl
  | [c], _ => by
    show stripUX [c, '_', 'x'] = [c]
    rw [stripUX]
    split
    · rename_i hc
      exact absurd hc.2 (by decide)
    · rfl
  | c :: d :: t', h => by
    have h1 : ¬(c = '_' ∧ d = 'x') := by
      intro hc
      rw [hasUX, if_pos hc] at h
      cases h
    have h2 : hasUX (d :: t') = false := by
      rw [hasUX, if_neg h1] at h
      exact h
    show stripUX (c :: d :: (t' ++ ['_', 'x'])) = c :: d :: t'
    rw [stripUX, if_neg h1]
    rw [show d :: (t' ++ ['_', 'x']) = (d :: t') ++ ['_', 'x'] from rfl,
      stripUX_append_ux (d :: t') h2]

theorem not_endsWithUX_of_not_hasUX {s : List Char} (h : hasUX s = false) :
    endsWithUX s = false := by
  cases he : endsWithUX s
  · rfl
  · obtain ⟨t, rfl⟩ := endsWithUX_decomp he
    rw [hasUX_append_ux] at h
    cases h

theorem dropLast_two (t : List Char) (a b : Char) :
    ((t ++ [a, b]).dropLast).dropLast = t := by
  have h1 : t ++ [a, b] = (t ++ [a]) ++ [b] := (List.append_assoc t [a] [b]).symm
  rw [h1, List.dropLast_concat, List.dropLast_concat]

theorem mem_map_rename {cols : List (List Char × Nat)} {p : List Char × Nat} (hp : p ∈ cols)
    (q : List Char × Nat)
    (hq : ((if endsWithUX p.1 then stripUX p.1 else p.1), p.2) = q) :
    q ∈ cols.map fun p => ((if endsWithUX p.1 then stripUX p.1 else p.1), p.2) :=
  List.mem_map.mpr ⟨p, hp, hq⟩

/-- Claim C8, counterexample: `col.replace('_x', '')` removes every
occurrence of the substring `_x`, not only the suffix: the column
`a_xb_x` is renamed to `ab`, not to its suffix-stripped original name
`a_xb`. -/
theorem clean_redundant_columns_counterexample :
    clean_redundant_columns [(String.toList "a_xb_x", 0)] = [(String.toList "ab", 0)] ∧
      String.toList "ab" ≠ String.toList "a_xb" := by decide

/-- Claim C8 (amended): `clean_redundant_columns` renames every column
ending in `_x` by deleting every occurrence of the substring `_x` from
its name — which restores the original unsuffixed name exactly when
`_x` occurs only as the suffix — and drops every column ending in `_y`;
provided each `_x`-suffixed name contains `_x` only as its suffix and
no rename produces a `_y`-suffixed name, no `_x`/`_y`-suffixed columns
remain afterwards, and each renamed column keeps its payload under its
restored name (unless that name is the separately-dropped legacy
`Unnamed: 0`). -/
theorem clean_redundant_columns_amended (cols : List (List Char × Nat))
    (H : ∀ p ∈ cols, endsWithUX p.1 = true →
      hasUX (p.1.dropLast.dropLast) = false ∧ endsWithUY (p.1.dropLast.dropLast) = false) :
    (∀ q ∈ clean_redundant_columns cols,
      endsWithUX q.1 = false ∧ endsWithUY q.1 = false) ∧
    (∀ p ∈ cols, endsWithUX p.1 = true → p.1.dropLast.dropLast ≠ unnamedZero →
      (p.1.dropLast.dropLast, p.2) ∈ clean_redundant_columns cols) := by
  have hmemF : ∀ q, q ∈ clean_redundant_columns cols →
      q ∈ (cols.map fun p => ((if endsWithUX p.1 then stripUX p.1 else p.1), p.2)).filter
        (fun p => !(decide (p.1 ∈ (cols.map Prod.fst).filter fun nm => endsWithUY nm))) := by
    intro q hq
    simp only [clean_redundant_columns] at hq
    split at hq
    · exact List.mem_of_mem_filter hq
    · exact hq
  constructor
  · intro q hq
    have hqF := hmemF q hq
    rw [List.mem_filter] at hqF
    obtain ⟨hqR, hqD⟩ := hqF
    rw [List.mem_map] at hqR
    obtain ⟨p, hp, hqp⟩ := hqR
    have hqp' : ((if endsWithUX p.1 then stripUX p.1 else p.1), p.2) = q := hqp
    have hqD' : ¬(q.1 ∈ (cols.map Prod.fst).filter fun nm => endsWithUY nm) := by
      simpa using hqD
    cases hx : endsWithUX p.1 with
    | true =>
      obtain ⟨t, ht⟩ := endsWithUX_decomp hx
      have hdrop : p.1.dropLast.dropLast = t := by rw [ht, dropLast_two]
      obtain ⟨hH1, hH2⟩ := H p hp hx
      rw [hdrop] at hH1 hH2
      have hstrip : stripUX p.1 = t := by rw [ht, stripUX_append_ux t hH1]
      have hq1 : q.1 = t := by rw [← hqp']; simp [hx, hstrip]
      rw [hq1]
      exact ⟨not_endsWithUX_of_not_hasUX hH1, hH2⟩
    | false =>
      have hq1 : q.1 = p.1 := by rw [← hqp']; simp [hx]
      constructor
      · rw [hq1]; exact hx
      · cases hy : endsWithUY q.1 with
        | false => rfl
        | true =>
          exfalso
          apply hqD'
          rw [List.mem_filter]
          refine ⟨?_, by simpa using hy⟩
          rw [hq1]
          exact List.mem_map_of_mem Prod.fst hp
  · intro p hp hx hz
    obtain ⟨t, ht⟩ := endsWithUX_decomp hx
    have hdrop : p.1.dropLast.dropLast = t := by rw [ht, dropLast_two]
    obtain ⟨hH1, hH2⟩ := H p hp hx
    rw [hdrop] at hH1 hH2
    rw [hdrop] at hz
    have hstrip : stripUX p.1 = t := by rw [ht, stripUX_append_ux t hH1]
    have hR : (t, p.2) ∈ cols.map
        (fun p => ((if endsWithUX p.1 then stripUX p.1 else p.1), p.2)) :=
      mem_map_rename hp (t, p.2) (by simp [hx, hstrip])
    have hnotD : ¬(t ∈ (cols.map Prod.fst).filter fun nm => endsWithUY nm) := by
      intro hd
      rw [List.mem_filter] at hd
      rw [hH2] at hd
      simpa using hd.2
    have hF : (t, p.2) ∈ (cols.map fun p =>
        ((if endsWithUX p.1 then stripUX p.1 else p.1), p.2)).filter
        (fun p => !(decide (p.1 ∈ (cols.map Prod.fst).filter fun nm => endsWithUY nm))) := by
      rw [List.mem_filter]
      exact ⟨hR, by simpa using hnotD⟩
    rw [hdrop]
    simp only [clean_redundant_columns]
    split
    · rw [List.mem_filter]
      exact ⟨hF, by simpa using hz⟩
    · exact hF

/-! ## C4: two-tier sort selection -/

theorem charListLT_irrefl : ∀ a : List Char, charListLT a a = false
  | [] => rfl
  | c :: cs => by
    rw [charListLT, if_neg (lt_irrefl c.toNat), if_neg (lt_irrefl c.toNat)]
    exact charListLT_irrefl cs

theorem charListLT_asymm : ∀ a b : List Char,
    charListLT a b = true → charListLT b a = false
  | [], [], h => by cases h
  | [], _ :: _, _ => rfl
  | _ :: _, [], h => by cases h
  | c :: cs, d :: ds, h => by
    rw [charListLT] at h
    rw [charListLT]
    by_cases h1 : c.toNat < d.toNat
    · rw [if_neg (by omega), if_pos h1]
    · rw [if_neg h1] at h
      by_cases h2 : d.toNat < c.toNat
      · rw [if_pos h2] at h; cases h
      · rw [if_neg h2] at h
        rw [if_neg h2, if_neg h1]
        exact charListLT_asymm cs ds h

theorem charListLT_connex : ∀ a b : List Char,
    charListLT a b = false → charListLT b a = false → a = b
  | [], [], _, _ => rfl
  | [], _ :: _, h1, _ => by cases h1
  | _ :: _, [], _, h2 => by cases h2
  | c :: cs, d :: ds, h1, h2 => by
    rw [charListLT] at h1 h2
    by_cases hcd : c.toNat < d.toNat
    · rw [if_pos hcd] at h1; cases h1
    · by_cases hdc : d.toNat < c.toNat
      · rw [if_pos hdc] at h2; cases h2
      · rw [if_neg hcd, if_neg hdc] at h1
        rw [if_neg hdc, if_neg hcd] at h2
        have hc : c = d := by
          have hn : c.toNat = d.toNat := by omega
          have hofn := Char.ofNat_toNat c
          rw [← hofn, hn, Char.ofNat_toNat]
        rw [hc, charListLT_connex cs ds h1 h2]

theorem charListLT_trans : ∀ a b c : List Char,
    charListLT a b = true → charListLT b c = true → charListLT a c = true
  | [], [], _, h1, _ => by cases h1
  | [], _ :: _, [], _, h2 => by cases h2
  | [], _ :: _, _ :: _, _, _ => rfl
  | _ :: _, [], _, h1, _ => by cases h1
  | _ :: _, _ :: _, [], _, h2 => by cases h2
  | x :: xs, y :: ys, z :: zs, h1, h2 => by
    rw [charListLT] at h1 h2
    rw [charListLT]
    by_cases hxy : x.toNat < y.toNat
    · by_cases hyz : y.toNat < z.toNat
      · rw [if_pos (by omega)]
      · rw [if_neg hyz] at h2
        by_cases hzy : z.toNat < y.toNat
        · rw [if_pos hzy] at h2; cases h2
        · rw [if_pos (by omega)]
    · rw [if_neg hxy] at h1
      by_cases hyx : y.toNat < x.toNat
      · rw [if_pos hyx] at h1; cases h1
      · rw [if_neg hyx] at h1
        by_cases hyz : y.toNat < z.toNat
        · rw [if_pos (by omega)]
        · rw [if_neg hyz] at h2
          by_cases hzy : z.toNat < y.toNat
          · rw [if_pos hzy] at h2; cases h2
          · rw [if_neg hzy] at h2
            rw [if_neg (by omega), if_neg (by omega)]
            exact charListLT_trans xs ys zs h1 h2

theorem charListLT_nlt_trans {a b c : List Char}
    (h1 : charListLT b a = false) (h2 : charListLT c b = false) :
    charListLT c a = false := by
  cases hlt : charListLT c a with
  | false => rfl
  | true =>
    exfalso
    by_cases hab : charListLT a b = true
    · have := charListLT_trans c a b hlt hab
      rw [this] at h2; cases h2
    · have hab' : charListLT a b = false := by
        cases h : charListLT a b
        · rfl
        · exact absurd h hab
      have heq : a = b := charListLT_connex a b hab' h1
      rw [heq] at hlt
      rw [hlt] at h2; cases h2

theorem tupLE_iff (x y : List Char × Nat × List Char) : tupLE x y = true ↔
    (charListLT x.1 y.1 = true ∨ (x.1 = y.1 ∧ (x.2.1 < y.2.1 ∨
      (x.2.1 = y.2.1 ∧ charListLT y.2.2 x.2.2 = false)))) := by
  simp [tupLE, Bool.or_eq_true, Bool.and_eq_true, Bool.not_eq_true']

theorem tupLE_refl (x : List Char × Nat × List Char) : tupLE x x = true := by
  rw [tupLE_iff]
  exact Or.inr ⟨rfl, Or.inr ⟨rfl, charListLT_irrefl _⟩⟩

theorem bool_eq_false {b : Bool} (h : ¬ b = true) : b = false := by
  cases b
  · rfl
  · exact absurd rfl h

theorem tupLE_total (x y : List Char × Nat × List Char) :
    tupLE x y = true ∨ tupLE y x = true := by
  rw [tupLE_iff, tupLE_iff]
  by_cases h1 : charListLT x.1 y.1 = true
  · exact Or.inl (Or.inl h1)
  · by_cases h2 : charListLT y.1 x.1 = true
    · exact Or.inr (Or.inl h2)
    · have he : x.1 = y.1 := charListLT_connex _ _ (bool_eq_false h1) (bool_eq_false h2)
      rcases Nat.lt_trichotomy x.2.1 y.2.1 with hp | hp | hp
      · exact Or.inl (Or.inr ⟨he, Or.inl hp⟩)
      · by_cases h3 : charListLT y.2.2 x.2.2 = true
        · exact Or.inr (Or.inr ⟨he.symm, Or.inr ⟨hp.symm, charListLT_asymm _ _ h3⟩⟩)
        · exact Or.inl (Or.inr ⟨he, Or.inr ⟨hp, bool_eq_false h3⟩⟩)
      · exact Or.inr (Or.inr ⟨he.symm, Or.inl hp⟩)

theorem tupLE_trans {x y z : List Char × Nat × List Char}
    (h1 : tupLE x y = true) (h2 : tupLE y z = true) : tupLE x z = true := by
  rw [tupLE_iff] at h1 h2 ⊢
  rcases h1 with h1 | ⟨he1, h1⟩
  · rcases h2 with h2 | ⟨he2, _⟩
    · exact Or.inl (charListLT_trans _ _ _ h1 h2)
    · exact Or.inl (he2 ▸ h1)
  · rcases h2 with h2 | ⟨he2, h2⟩
    · exact Or.inl (he1 ▸ h2)
    · refine Or.inr ⟨he1.trans he2, ?_⟩
      rcases h1 with h1 | ⟨hp1, h1⟩
      · rcases h2 with h2 | ⟨hp2, _⟩
        · exact Or.inl (h1.trans h2)
        · exact Or.inl (hp2 ▸ h1)
      · rcases h2 with h2 | ⟨hp2, h2⟩
        · exact Or.inl (hp1 ▸ h2)
        · exact Or.inr ⟨hp1.trans hp2, charListLT_nlt_trans h1 h2⟩

theorem tupLE_antisymm {x y : List Char × Nat × List Char}
    (h1 : tupLE x y = true) (h2 : tupLE y x = true) : x = y := by
  rw [tupLE_iff] at h1 h2
  obtain ⟨x1, x2, x3⟩ := x
  obtain ⟨y1, y2, y3⟩ := y
  simp only at h1 h2
  rcases h1 with h1 | ⟨he1, h1⟩
  · rcases h2 with h2 | ⟨he2, _⟩
    · rw [charListLT_asymm _ _ h1] at h2; cases h2
    · rw [he2, charListLT_irrefl] at h1; cases h1
  · rcases h2 with h2 | ⟨he2, h2⟩
    · rw [he1, charListLT_irrefl] at h2; cases h2
    · rcases h1 with h1 | ⟨hp1, h1⟩
      · rcases h2 with h2 | ⟨hp2, _⟩
        · omega
        · omega
      · rcases h2 with h2 | ⟨hp2, h2⟩
        · omega
        · have h3 : x3 = y3 := charListLT_connex x3 y3 h2 h1
          rw [he1, hp1, h3]

theorem keyLE_refl (v : ValidRelease) : keyLE v v = true := tupLE_refl _

theorem keyLE_total (a b : ValidRelease) : keyLE a b = true ∨ keyLE b a = true :=
  tupLE_total _ _

theorem keyLE_trans {a b c : ValidRelease} (h1 : keyLE a b = true)
    (h2 : keyLE b c = true) : keyLE a c = true := tupLE_trans h1 h2

theorem stableInsert_perm (x : ValidRelease) (l : List ValidRelease) :
    List.Perm (stableInsert x l) (x :: l) := by
  induction l with
  | nil => exact List.Perm.refl _
  | cons y ys ih =>
    rw [stableInsert]
    split
    · exact (ih.cons y).trans (List.Perm.swap x y ys)
    · exact List.Perm.refl _

theorem stableSortAux_perm : ∀ (l acc : List ValidRelease),
    List.Perm (l.foldl (fun acc x => stableInsert x acc) acc) (acc ++ l) := by
  intro l
  induction l with
  | nil => intro acc; simp
  | cons x xs ih =>
    intro acc
    rw [List.foldl_cons]
    exact ((ih (stableInsert x acc)).trans
      ((stableInsert_perm x acc).append_right xs)).trans List.perm_middle.symm

theorem stableSort_perm (l : List ValidRelease) : List.Perm (stableSort l) l := by
  have h := stableSortAux_perm l []
  simpa [stableSort] using h

theorem stableInsert_pairwise (x : ValidRelease) (l : List ValidRelease)
    (hl : l.Pairwise (fun a b => keyLE a b = true)) :
    (stableInsert x l).Pairwise (fun a b => keyLE a b = true) := by
  induction l with
  | nil => simp [stableInsert]
  | cons y ys ih =>
    rw [List.pairwise_cons] at hl
    obtain ⟨hy, hys⟩ := hl
    rw [stableInsert]
    split
    · rename_i hyx
      rw [List.pairwise_cons]
      refine ⟨?_, ih hys⟩
      intro z hz
      rcases List.mem_cons.mp ((stableInsert_perm x ys).subset hz) with rfl | hzys
      · exact hyx
      · exact hy z hzys
    · rename_i hyx
      have hxy : keyLE x y = true := by
        rcases keyLE_total x y with h | h
        · exact h
        · rw [h] at hyx; cases hyx rfl
      rw [List.pairwise_cons]
      constructor
      · intro z hz
        rcases List.mem_cons.mp hz with rfl | hzys
        · exact hxy
        · exact keyLE_trans hxy (hy z hzys)
      · rw [List.pairwise_cons]
        exact ⟨hy, hys⟩

theorem stableSortAux_pairwise : ∀ (l acc : List ValidRelease),
    acc.Pairwise (fun a b => keyLE a b = true) →
    (l.foldl (fun acc x => stableInsert x acc) acc).Pairwise
      (fun a b => keyLE a b = true) := by
  intro l
  induction l with
  | nil => intro acc h; exact h
  | cons x xs ih =>
    intro acc h
    rw [List.foldl_cons]
    exact ih _ (stableInsert_pairwise x acc h)

theorem stableSort_pairwise (l : List ValidRelease) :
    (stableSort l).Pairwise (fun a b => keyLE a b = true) :=
  stableSortAux_pairwise l [] List.Pairwise.nil

theorem stableSort_head_min (l : List ValidRelease) (v : ValidRelease)
    (rest : List ValidRelease) (h : stableSort l = v :: rest) :
    v ∈ l ∧ ∀ w ∈ l, keyLE v w = true := by
  have hperm : List.Perm (v :: rest) l := h ▸ stableSort_perm l
  constructor
  · exact hperm.subset (List.mem_cons_self v rest)
  · intro w hw
    rcases List.mem_cons.mp (hperm.symm.subset hw) with rfl | hwr
    · exact keyLE_refl w
    · have hp := stableSort_pairwise l
      rw [h, List.pairwise_cons] at hp
      exact hp.1 w hwr

theorem get_track_prominence_selected (recs : List MBRecording)
    (loose : Except Unit (List MBRecording)) (hne : recs ≠ [])
    {v : ValidRelease} {rest : List ValidRelease}
    (h : stableSort (validReleases recs) = v :: rest) :
    (get_track_prominence (.ok recs) loose).2.2 = some v.release := by
  cases recs with
  | nil => exact absurd rfl hne
  | cons r rs =>
    unfold get_track_prominence resolveRecordings
    dsimp only
    rw [h]

/-- Claim C4, counterexample: when two distinct surviving candidates
share the same sort-key tuple (same year, same type, same full date),
the selected release depends on candidate input order — the stable sort
keeps the first-seen candidate in front — so the selection is not
independent of input order as claimed: the same two releases in the two
orders yield different selected releases. -/
theorem get_track_prominence_order_dependent :
    (get_track_prominence (.ok [{ releaseList := some [exRelTieA, exRelTieB] }])
      (.ok [])).2.2 = some exRelTieA ∧
    (get_track_prominence (.ok [{ releaseList := some [exRelTieB, exRelTieA] }])
      (.ok [])).2.2 = some exRelTieB ∧
    exRelTieA ≠ exRelTieB := by
  decide

/-- Claim C4 (amended): for every non-empty list of candidate releases
surviving the filters, `get_track_prominence` selects a candidate whose
sort-key tuple `(date[:4], type priority with Album=0 < EP=1 < Single=2,
full date)` is minimal among all survivors; when no two distinct
survivors share a sort key, the selected release is moreover
independent of candidate input order (with equal keys, ties go to the
earlier candidate, as the counterexample shows).  The spec's concrete
example — Single "2012" vs Album "2012-03-01" selects the Album — is
the witness below. -/
theorem get_track_prominence_min_key (recs : List MBRecording)
    (loose : Except Unit (List MBRecording)) (hne : recs ≠ [])
    (hv : validReleases recs ≠ [])
    (hinj : ∀ a ∈ validReleases recs, ∀ b ∈ validReleases recs,
      sortKey a = sortKey b → a = b) :
    ∃ v : ValidRelease, v ∈ validReleases recs ∧
      (get_track_prominence (.ok recs) loose).2.2 = some v.release ∧
      (∀ w ∈ validReleases recs, keyLE v w = true) ∧
      ∀ recs' : List MBRecording, ∀ loose' : Except Unit (List MBRecording),
        recs' ≠ [] → List.Perm (validReleases recs') (validReleases recs) →
        (get_track_prominence (.ok recs') loose').2.2 = some v.release := by
  cases hsort : stableSort (validReleases recs) with
  | nil =>
    have hp := stableSort_perm (validReleases recs)
    rw [hsort] at hp
    exact absurd hp.symm.eq_nil hv
  | cons v rest =>
    have hmin := stableSort_head_min _ v rest hsort
    refine ⟨v, hmin.1, get_track_prominence_selected recs loose hne hsort, hmin.2, ?_⟩
    intro recs' loose' hne' hperm
    cases hsort' : stableSort (validReleases recs') with
    | nil =>
      have hp := stableSort_perm (validReleases recs')
      rw [hsort'] at hp
      rw [hp.symm.eq_nil] at hperm
      exact absurd hperm.symm.eq_nil hv
    | cons v' rest' =>
      have hmin' := stableSort_head_min _ v' rest' hsort'
      have hv'mem : v' ∈ validReleases recs := hperm.subset hmin'.1
      have hvmem' : v ∈ validReleases recs' := hperm.symm.subset hmin.1
      have h1 : keyLE v v' = true := hmin.2 v' hv'mem
      have h2 : keyLE v' v = true := hmin'.2 v hvmem'
      have hkey : sortKey v = sortKey v' := tupLE_antisymm h1 h2
      have hvv : v = v' := hinj v hmin.1 v' hv'mem hkey
      rw [get_track_prominence_selected recs' loose' hne' hsort', ← hvv]

theorem get_track_prominence_min_key_witness :
    (∃ v : ValidRelease, v ∈ validReleases exRecsSpec ∧
      (get_track_prominence (.ok exRecsSpec) (.ok [])).2.2 = some v.release ∧
      (∀ w ∈ validReleases exRecsSpec, keyLE v w = true) ∧
      ∀ recs' : List MBRecording, ∀ loose' : Except Unit (List MBRecording),
        recs' ≠ [] → List.Perm (validReleases recs') (validReleases exRecsSpec) →
        (get_track_prominence (.ok recs') loose').2.2 = some v.release) ∧
    (get_track_prominence (.ok exRecsSpec) (.ok [])).2.2 = some exRelAlbum :=
  ⟨get_track_prominence_min_key exRecsSpec (.ok []) (by decide) (by decide) (by decide),
   by decide⟩

/-! ## C2 and C6: fallback selection and the catch-all -/

theorem extractMetrics_found_iff (best : MBRelease) :
    (extractMetrics best).1.found = !(extractMetrics best).2 := by
  rw [extractMetrics]
  cases best.mediumList with
  | none => rfl
  | some ml =>
    cases ml with
    | nil => rfl
    | cons medium ms =>
      dsimp only
      cases medium.trackCount with
      | none =>
        cases medium.trackList with
        | none => rfl
        | some tl =>
          cases tl with
          | nil => rfl
          | cons track ts =>
            dsimp only
            cases (List.filter Char.isDigit (track.number.getD "").toList).isEmpty <;> rfl
      | some tc =>
        cases tc with
        | none =>
          cases medium.trackList with
          | none => rfl
          | some tl =>
            cases tl with
            | nil => rfl
            | cons track ts =>
              dsimp only
              cases (List.filter Char.isDigit (track.number.getD "").toList).isEmpty <;> rfl
        | some n =>
          cases medium.trackList with
          | none => rfl
          | some tl =>
            cases tl with
            | nil => rfl
            | cons track ts =>
              dsimp only
              cases (List.filter Char.isDigit (track.number.getD "").toList).isEmpty <;> rfl

/-- Claim C2, counterexample: the strict search returns two recordings;
the second carries a release (which fails the official-status filter,
so no release survives steps 1-4), but the first recording has no
release list — and the fallback guard only inspects the first
recording, so the extractor selects nothing and returns `found=False`,
not the claimed fallback with `found=True`. -/
theorem get_track_prominence_fallback_counterexample :
    (get_track_prominence (.ok exRecsFirstBare) (.ok [])).1.found = false ∧
    (get_track_prominence (.ok exRecsFirstBare) (.ok [])).2.2 = none ∧
    validReleases exRecsFirstBare = [] ∧
    ({ releaseList := some [exRelUnofficial] } : MBRecording) ∈ exRecsFirstBare := by
  decide

/-- Claim C2 (amended): when no release survives filter steps 1-4 and
the first returned recording has at least one release, the extractor
selects that recording's first release with no filtering, and — as long
as metric extraction from it does not raise — the returned record has
`found=True`.  When the first returned recording has no release, the
call instead returns the untouched `found=False` record even if a later
recording carries releases. -/
theorem get_track_prominence_fallback (rec0 : MBRecording) (recs : List MBRecording)
    (loose : Except Unit (List MBRecording)) (rel : MBRelease) (rels : List MBRelease)
    (hv : validReleases (rec0 :: recs) = [])
    (hrl : rec0.releaseList = some (rel :: rels))
    (hok : (extractMetrics rel).2 = false) :
    (get_track_prominence (.ok (rec0 :: recs)) loose).2.2 = some rel ∧
    (get_track_prominence (.ok (rec0 :: recs)) loose).1.found = true := by
  have hsort : stableSort (validReleases (rec0 :: recs)) = [] := by rw [hv]; rfl
  have hfb : fallbackRelease (rec0 :: recs) = some rel := by
    simp only [fallbackRelease, hrl]
  unfold get_track_prominence resolveRecordings
  dsimp only
  rw [hsort, hfb]
  dsimp only
  refine ⟨rfl, ?_⟩
  rw [extractMetrics_found_iff rel, hok]
  rfl

theorem get_track_prominence_fallback_witness :
    (get_track_prominence (.ok [{ releaseList := some [exRelUnofficial] }])
      (.ok [])).2.2 = some exRelUnofficial ∧
    (get_track_prominence (.ok [{ releaseList := some [exRelUnofficial] }])
      (.ok [])).1.found = true :=
  get_track_prominence_fallback { releaseList := some [exRelUnofficial] } []
    (.ok []) exRelUnofficial [] (by decide) (by decide) (by decide)

/-- Claim C6, counterexample: a response whose selected release has a
non-numeric `track-count` makes `int(medium["track-count"])` raise
after `release_title`, `release_date`, `release_type` and
`track_number` were already written into the result; the catch-all
then returns that partly filled record with `found=False` — not the
record with "the other fields at their initial defaults" the claim
describes. -/
theorem get_track_prominence_keeps_fields :
    (get_track_prominence (.ok [{ releaseList := some [exRelRaise] }]) (.ok [])).1 =
      { release_title := some "T", release_date := some "2001-01-01",
        release_type := "Album", track_count := none, track_number := some 7,
        found := false } ∧
    (get_track_prominence (.ok [{ releaseList := some [exRelRaise] }]) (.ok [])).2.1 = true ∧
    ({ release_title := some "T", release_date := some "2001-01-01",
       release_type := "Album", track_count := none, track_number := some 7,
       found := false } : ProminenceResult) ≠ initResult := by
  decide

/-- Claim C6 (amended): `get_track_prominence` never raises — every
exception during search or field extraction is caught by its catch-all
— and whenever the catch-all ran the returned record has `found=False`;
however, fields assigned before the exception keep their extracted
values, so the record is not necessarily the all-defaults "not found"
record. -/
theorem get_track_prominence_no_raise (strict loose : Except Unit (List MBRecording))
    (h : (get_track_prominence strict loose).2.1 = true) :
    (get_track_prominence strict loose).1.found = false := by
  unfold get_track_prominence at h ⊢
  cases hres : resolveRecordings strict loose with
  | error e => rfl
  | ok recs =>
    rw [hres] at h
    cases recs with
    | nil =>
      dsimp only at h
      cases h
    | cons r rs =>
      dsimp only at h ⊢
      cases hsort : stableSort (validReleases (r :: rs)) with
      | cons v rest =>
        rw [hsort] at h
        dsimp only at h ⊢
        rw [extractMetrics_found_iff, h]
        rfl
      | nil =>
        rw [hsort] at h
        dsimp only at h ⊢
        cases hfb : fallbackRelease (r :: rs) with
        | some rel =>
          rw [hfb] at h
          dsimp only at h ⊢
          rw [extractMetrics_found_iff, h]
          rfl
        | none =>
          rw [hfb] at h
          dsimp only at h
          cases h

theorem get_track_prominence_no_raise_witness :
    (get_track_prominence (.error ()) (.ok [])).1.found = false :=
  get_track_prominence_no_raise (.error ()) (.ok []) (by decide)

/-! ## C3: retry and the client boundary -/

/-- Claim C3, counterexample: a 503 response — a transient 5xx failure —
is not retried: the decorated body falls through to `return None`
without raising, so tenacity sees a successful call and the whole
lookup immediately returns the not-found sentinel, even though the
remaining two attempts would have succeeded with a high-confidence
artist. -/
theorem search_musicbrainz_no_retry_5xx :
    search_musicbrainz (.resp 503 none) exOkSearch exOkSearch = .ok none ∧
    searchAttempt exOkSearch =
      .ok (some { mbid := "m1", name := "A", mb_country := none }) := by
  decide

/-- Claim C3 (amended): a raised request (timeout, connection error) or
a malformed 200-body both make the decorated attempt raise
(`searchAttempt` is `.error ()` on `.exc` and on `.resp 200 none`),
consuming one tenacity attempt, and every such failing attempt is
retried on the remaining attempts (with tenacity's exponential
2-to-10-second wait between attempts); a non-2xx status is not retried
— that attempt immediately returns the not-found sentinel `None`; when
all three attempts raise, `search_musicbrainz` itself propagates the
failure, and it is `fetch_and_build_record` that catches it and returns
the not-found sentinel, so the transient failure never escapes past
`fetch_and_build_record`. -/
theorem search_musicbrainz_retry_boundary :
    (searchAttempt HttpOutcome.exc = .error () ∧
      searchAttempt (.resp 200 none) = .error ()) ∧
    (∀ o1 : HttpOutcome MBSearchBody, searchAttempt o1 = .error () →
      ∀ o2 o3 : HttpOutcome MBSearchBody,
        search_musicbrainz o1 o2 o3 = tenacityRetry searchAttempt [o2, o3]) ∧
    (∀ (st : Nat) (b : Option MBSearchBody) (o2 o3 : HttpOutcome MBSearchBody),
      st ≠ 200 → search_musicbrainz (.resp st b) o2 o3 = .ok none) ∧
    (∀ (m1 m2 m3 : HttpOutcome MBSearchBody) (q1 q2 q3 : HttpOutcome MBRelBody)
      (w1 w2 w3 : HttpOutcome WDBody),
      search_musicbrainz m1 m2 m3 = .error () →
      fetch_and_build_record m1 m2 m3 q1 q2 q3 w1 w2 w3 = none) ∧
    search_musicbrainz .exc .exc .exc = .error () := by
  refine ⟨⟨rfl, rfl⟩, ?_, ?_, ?_, rfl⟩
  · intro o1 h o2 o3
    unfold search_musicbrainz tenacityRetry
    rw [h]
    rfl
  · intro st b o2 o3 h
    have hA : searchAttempt (.resp st b) = .ok none := by
      unfold searchAttempt
      dsimp only
      rw [if_neg h]
    unfold search_musicbrainz tenacityRetry
    rw [hA]
  · intro m1 m2 m3 q1 q2 q3 w1 w2 w3 h
    unfold fetch_and_build_record
    rw [h]

theorem search_musicbrainz_retry_boundary_witness :
    search_musicbrainz (.resp 200 none) exOkSearch exOkSearch =
      tenacityRetry searchAttempt [exOkSearch, exOkSearch] ∧
    search_musicbrainz (.resp 500 (some { artists := [] })) exOkSearch exOkSearch =
      .ok none ∧
    fetch_and_build_record .exc .exc .exc .exc .exc .exc .exc .exc .exc = none :=
  ⟨search_musicbrainz_retry_boundary.2.1 (.resp 200 none) (by decide)
     exOkSearch exOkSearch,
   search_musicbrainz_retry_boundary.2.2.1 500 (some { artists := [] })
     exOkSearch exOkSearch (by decide),
   search_musicbrainz_retry_boundary.2.2.2.1 .exc .exc .exc .exc .exc .exc .exc .exc .exc
     (by decide)⟩

/-! ## C9: pacing traces -/

/-- Claim C9, counterexample: the Wikidata SPARQL client
(`enrich_from_wikidata`) issues its outbound request with no pacing
sleep at all — its trace is just the request — so the claimed "fixed
minimum pacing sleep after every request regardless of outcome" does
not hold for every rate-limited client call. -/
theorem wd_no_pacing :
    wdAttemptTrace (.resp 200 (some { bindings := [] })) = [PEvent.req] ∧
    paced (wdAttemptTrace (.resp 200 (some { bindings := [] }))) = false := by
  decide

/-- Claim C9 (amended): the MusicBrainz artist-search and
artist-relation clients sleep a fixed 1.2 s immediately after the
request whenever a response was received, regardless of status or body
(so those traces are paced), but a raised request skips the sleep; the
Wikidata SPARQL client never sleeps; and `get_track_prominence` sleeps
1.0 s before — not after — its request, issuing the loose fallback
search back-to-back with no sleep in between when the strict search
came back empty. -/
theorem pacing_traces :
    (∀ (st : Nat) (b : Option MBSearchBody),
      paced (mbSearchAttemptTrace (.resp st b)) = true ∧
      mbSearchAttemptTrace (.resp st b) = [PEvent.req, PEvent.sleepMs 1200]) ∧
    paced (mbSearchAttemptTrace .exc) = false ∧
    (∀ (st : Nat) (b : Option MBRelBody),
      paced (mbQidAttemptTrace (.resp st b)) = true) ∧
    paced (mbQidAttemptTrace .exc) = false ∧
    (∀ o : HttpOutcome WDBody, paced (wdAttemptTrace o) = false) ∧
    (∀ strict : Except Unit (List MBRecording),
      (prominenceTrace strict).head? = some (PEvent.sleepMs 1000) ∧
      (prominenceTrace strict).tail.head? = some PEvent.req) ∧
    prominenceTrace (.ok []) = [PEvent.sleepMs 1000, PEvent.req, PEvent.req] := by
  refine ⟨fun st b => ⟨rfl, rfl⟩, rfl, fun st b => rfl, rfl, ?_, ?_, rfl⟩
  · intro o
    cases o <;> rfl
  · intro strict
    exact ⟨rfl, rfl⟩

theorem clean_redundant_columns_amended_witness :
    (String.toList "artist_name", 10) ∈ clean_redundant_columns
        [(String.toList "artist_name_x", 10), (String.toList "artist_name_y", 20)] ∧
    clean_redundant_columns
        [(String.toList "artist_name_x", 10), (String.toList "artist_name_y", 20)] =
      [(String.toList "artist_name", 10)] := by
  constructor
  · exact (clean_redundant_columns_amended
      [(String.toList "artist_name_x", 10), (String.toList "artist_name_y", 20)]
      (by decide)).2 (String.toList "artist_name_x", 10) (by decide) (by decide) (by decide)
  · decide
